import Mathlib

/-
Verification development for the chunk-request pool of the go-vite ledger
synchronization subsystem (vite/net/request.go).

The Go code is shallowly embedded: uint64 arithmetic is modeled as Nat with
an explicit `% U64` wherever wraparound can actually occur; the concurrent
loops (taskLoop, loop) are flattened to single-tick step functions; the
sync.Map of in-flight chunks is an association list; calls out to the block
receiver and to peers are recorded as an explicit event list.
-/

namespace Net

/-- Modulus of Go's uint64 arithmetic. -/
def U64 : Nat := 2 ^ 64

/-- Source constant `chunk = 20`: the chunk width. -/
def chunk : Nat := 20

/-- Source constant `chunkTimeout` (20 seconds, modeled in seconds). -/
def chunkTimeout : Nat := 20

/-- The two source lines computing the upper bound of one chunk:
`cTo = from + chunk - 1; if cTo > to { cTo = to }`, in uint64 arithmetic. -/
def chunkTo (t f : Nat) : Nat :=
  if t < (f + chunk - 1) % U64 then t else (f + chunk - 1) % U64

/-- Loop body of Go `splitChunk`, from vite/net/request.go.  `fuel` is the
number of still-unwritten slots of the allocated array (`total - i`); the
Go loop writes `chunks[i]` on every iteration, so running out of fuel while
`from <= to` still holds is exactly Go's index-out-of-range panic, modeled
as `none`.  The advance `from = cTo + 1` is also uint64 arithmetic. -/
def splitChunkGo (t : Nat) : Nat → Nat → Option (List (Nat × Nat))
  | f, 0 => if t < f then some [] else none
  | f, fuel + 1 =>
    if t < f then some []
    else
      (splitChunkGo t ((chunkTo t f + 1) % U64) fuel).map
        (fun rest => (f, chunkTo t f) :: rest)

/-- Go `splitChunk(from, to)`: returns the chunk list, or `none` when the Go
code panics (array overrun caused by uint64 wraparound near 2^64).
`(to - from) / chunk + 1` is the length of the allocated array. -/
def splitChunk (f t : Nat) : Option (List (Nat × Nat)) :=
  if t < f ∨ t = 0 then some []
  else splitChunkGo t f ((t - f) / chunk + 1)

/-- The partition property claimed by the specification for `split(from,to)`
on a nonempty range: the first interval starts at `from`; every interval but
the last has width exactly `chunk`; each subsequent interval starts at the
previous interval's `hi + 1`; the last interval ends at `to` and may be
shorter than `chunk`. -/
def IsChunkPartition : Nat → Nat → List (Nat × Nat) → Prop
  | _, _, [] => False
  | f, t, (lo, hi) :: rest =>
    lo = f ∧ ((rest = [] ∧ hi = t ∧ t < f + chunk) ∨
              (hi = f + (chunk - 1) ∧ hi < t ∧ IsChunkPartition (hi + 1) t rest))

/-! ## Pool data model

`chunkRequest` and `chunkPool` from vite/net/request.go.  External
collaborators are modeled as data: peers are Nat identifiers, the peer set's
`Pick(height)` is a function field of the pool, the external id allocator
(`gid.MsgID`) is a counter field, blocks are opaque Nat identifiers, and
every call into the block receiver or a peer's `Send` is recorded as an
`Event`.  The `term` channel is `none` before `start`, `some false` while
open and `some true` once closed.  `wg` and `recing` have no observable
effect in the embedded fragment and are dropped. -/

/-- Go `reqState` with its six constants. -/
inductive reqState where
  | reqWaiting
  | reqPending
  | reqRespond
  | reqDone
  | reqError
  | reqCancel
deriving DecidableEq

/-- Go `message.GetChunk` payload: inclusive bounds. -/
structure GetChunk where
  Start : Nat
  End : Nat
deriving DecidableEq

/-- Go `chunkRequest`.  `from` is a Lean keyword, hence the field `from_`.
`deadline` is an absolute time in the same Nat time scale as `now`. -/
structure chunkRequest where
  id : Nat
  from_ : Nat
  to_ : Nat
  peer : Option Nat
  state : reqState
  deadline : Nat
  msg : GetChunk
  count : Nat
deriving DecidableEq

/-- Go `message.SubLedger` response payload: account and snapshot blocks. -/
structure SubLedger where
  ABlocks : List Nat
  SBlocks : List Nat
deriving DecidableEq

/-- An inbound `p2p.Msg`.  `payload = none` models a payload on which
`Deserialize` fails; `some res` models a successful decode to `res`. -/
structure Msg where
  cmd : Nat
  id : Nat
  payload : Option SubLedger
deriving DecidableEq

/-- The opaque `SubLedgerCode` command constant (value defined outside the
embedded file; only its identity matters). -/
def SubLedgerCode : Nat := 10

/-- Observable calls out of the pool: the two block-receiver callbacks, the
receiver's `catch` (carrying the failed piece's band) and a peer `Send`. -/
inductive Event where
  | receiveAccountBlock (b : Nat)
  | receiveSnapshotBlock (b : Nat)
  | catchPiece (from_ to_ : Nat)
  | send (peer id start end_ : Nat)
deriving DecidableEq

/-- Go `chunkPool`.  `pick` embeds `peers.Pick`; `nextId` embeds the
external monotone id allocator `gid.MsgID`. -/
structure chunkPool where
  pick : Nat → List Nat
  queue : List chunkRequest
  chunks : List (Nat × chunkRequest)
  target : Nat
  should : Bool
  term : Option Bool
  nextId : Nat

/-- Go `newChunkPool`: fresh queue and map, zero values elsewhere. -/
def newChunkPool (pick : Nat → List Nat) : chunkPool :=
  { pick := pick, queue := [], chunks := [], target := 0, should := false,
    term := none, nextId := 0 }

/-- `sync.Map.Load` on the in-flight map. -/
def load : List (Nat × chunkRequest) → Nat → Option chunkRequest
  | [], _ => none
  | e :: m, id => if e.1 = id then some e.2 else load m id

/-- `sync.Map.Delete` on the in-flight map. -/
def delete : List (Nat × chunkRequest) → Nat → List (Nat × chunkRequest)
  | [], _ => []
  | e :: m, id => if e.1 = id then delete m id else e :: delete m id

/-- `sync.Map.Store` on the in-flight map. -/
def store (m : List (Nat × chunkRequest)) (id : Nat) (c : chunkRequest) :
    List (Nat × chunkRequest) :=
  (id, c) :: delete m id

/-- Go `chunkPool.threshold(current)`: `should = current+500 > target`,
with the uint64 sum taken mod 2^64. -/
def threshold (p : chunkPool) (current : Nat) : chunkPool :=
  if p.target < (current + 500) % U64 then { p with should := true }
  else { p with should := false }

/-- Go `chunkPool.do(c)`: fresh deadline, pending state, send the payload
tagged with the chunk id (the `GetChunkCode` command is implicit in the
`Event.send` constructor).  Returns the pool (unchanged), the mutated
chunk, and the emitted event.  The Go receiver `c.peer` is non-nil at every
call site; `getD 0` covers the impossible nil case. -/
def doSend (now : Nat) (p : chunkPool) (c : chunkRequest) :
    chunkPool × chunkRequest × List Event :=
  (p, { c with deadline := now + chunkTimeout, state := .reqPending },
   [Event.send (c.peer.getD 0) c.id c.msg.Start c.msg.End])

/-- Go `chunkPool.catch(c)`: mark the chunk error and report the piece to
the receiver.  It does not touch the queue or the in-flight map. -/
def catchReq (c : chunkRequest) : chunkRequest × List Event :=
  ({ c with state := .reqError }, [Event.catchPiece c.from_ c.to_])

/-- Go `chunkPool.request(c)`.  `r` stands for the draw of `rand.Intn`:
the chosen peer is `peers[r % len(peers)]`.  When `c.peer` is nil and the
selector returns no peer the chunk is caught; otherwise `target` is
assigned (not maxed!) with `c.to` and the chunk is dispatched via `do`. -/
def request (r now : Nat) (p : chunkPool) (c : chunkRequest) :
    chunkPool × chunkRequest × List Event :=
  match c.peer with
  | none =>
    match p.pick c.to_ with
    | [] =>
      let res := catchReq c
      (p, res.1, res.2)
    | q :: qs =>
      let sel := (q :: qs).getD (r % (q :: qs).length) q
      doSend now { p with target := c.to_ } { c with peer := some sel }
  | some _ => doSend now { p with target := c.to_ } c

/-- A fresh `chunkRequest` as built by both `add` and `exec`: interval from
the splitter, id from the allocator, encoded payload, zero values elsewhere
(Go's zero `reqState` is `reqWaiting`). -/
def mkChunkRequest (id : Nat) (pr : Nat × Nat) : chunkRequest :=
  { id := id, from_ := pr.1, to_ := pr.2, peer := none,
    state := .reqWaiting, deadline := 0,
    msg := { Start := pr.1, End := pr.2 }, count := 0 }

/-- One iteration of the loop in Go `add`: allocate an id, append the chunk
to the FIFO queue. -/
def enqueueChunk (q : chunkPool) (pr : Nat × Nat) : chunkPool :=
  { q with queue := q.queue ++ [mkChunkRequest q.nextId pr],
           nextId := q.nextId + 1 }

/-- Go `chunkPool.add(from, to)`: split the range, allocate an id and build
the payload for every chunk, append them to the FIFO queue.  `none` when
`splitChunk` panics. -/
def add (p : chunkPool) (f t : Nat) : Option chunkPool :=
  (splitChunk f t).map (fun cs => cs.foldl enqueueChunk p)

/-- One iteration of the loop in Go `exec`: build the chunk and dispatch it
via `request`.  The post-`request` chunk value is discarded, exactly as the
Go local `c` goes out of scope without being stored anywhere. -/
def execChunk (r now : Nat) (acc : chunkPool × List Event) (pr : Nat × Nat) :
    chunkPool × List Event :=
  let res := request r now { acc.1 with nextId := acc.1.nextId + 1 }
      (mkChunkRequest acc.1.nextId pr)
  (res.1, acc.2 ++ res.2.2)

/-- Go `chunkPool.exec(from, to)`: split the range and dispatch every chunk
immediately via `request`, bypassing both the queue and the in-flight map. -/
def exec (r now : Nat) (p : chunkPool) (f t : Nat) :
    Option (chunkPool × List Event) :=
  (splitChunk f t).map (fun cs => cs.foldl (execChunk r now) (p, []))

/-- Go `chunkPool.done(id)`: delete the id from the map if present. -/
def done (p : chunkPool) (id : Nat) : chunkPool :=
  match load p.chunks id with
  | some _ => { p with chunks := delete p.chunks id }
  | none => p

/-- The first-differing-peer loop inside Go `retry`: scan the picked peers
and take the first one different from the old peer (a nil old peer differs
from every peer). -/
def pickDiff : List Nat → Option Nat → Option Nat
  | [], _ => none
  | x :: xs, old => if some x = old then pickDiff xs old else some x

/-- Go `chunkPool.retry(id)`: no-op on an unknown id; otherwise clear the
peer, pick the first peer different from the old one, and either re-dispatch
with a fresh deadline (peer found) or catch the chunk (none found).  The Go
code mutates the chunk through the pointer stored in the map, so the model
writes the mutated chunk back. -/
def retry (now : Nat) (p : chunkPool) (id : Nat) : chunkPool × List Event :=
  match load p.chunks id with
  | none => (p, [])
  | some c =>
    match pickDiff (p.pick c.to_) c.peer with
    | none =>
      let res := catchReq { c with peer := none }
      ({ p with chunks := store p.chunks id res.1 }, res.2)
    | some pk =>
      let res := doSend now p { c with peer := some pk }
      ({ p with chunks := store p.chunks id res.2.1 }, res.2.2)

/-- The receiver deliveries of one successfully decoded response: the two
`for` loops of Go `Handle`, account blocks first, then snapshot blocks. -/
def handleEvents (res : SubLedger) : List Event :=
  res.ABlocks.map Event.receiveAccountBlock ++
  res.SBlocks.map Event.receiveSnapshotBlock

/-- Go `chunkPool.Handle(msg, sender)`.  The third component is the value
returned to the caller: `some ()` models the non-nil deserialization error
returned on a decode failure, `none` models a nil return.  The Go update
`c.count += len(res.SBlock)` followed by the `count >= to-from+1` test is
written with the sum inlined. -/
def Handle (now : Nat) (p : chunkPool) (msg : Msg) :
    chunkPool × List Event × Option Unit :=
  if msg.cmd = SubLedgerCode then
    match msg.payload with
    | none => ((retry now p msg.id).1, (retry now p msg.id).2, some ())
    | some res =>
      match load p.chunks msg.id with
      | none => (p, handleEvents res, none)
      | some c =>
        if c.to_ - c.from_ + 1 ≤ c.count + res.SBlocks.length then
          (done
            { p with
              chunks :=
                store p.chunks msg.id { c with count := c.count + res.SBlocks.length } }
            msg.id,
           handleEvents res, none)
        else
          ({ p with
              chunks :=
                store p.chunks msg.id { c with count := c.count + res.SBlocks.length } },
           handleEvents res, none)
  else ((retry now p msg.id).1, (retry now p msg.id).2, none)

/-- One productive tick of Go `taskLoop`: when `should` holds and the queue
is nonempty, shift the head, store it in the in-flight map and dispatch it
via `request`.  The Go map stores a pointer, so the entry reflects the
mutations `request` performs; the model stores the post-`request` chunk. -/
def taskLoopStep (r now : Nat) (p : chunkPool) : chunkPool × List Event :=
  if p.should then
    match p.queue with
    | [] => (p, [])
    | c :: rest =>
      let res := request r now { p with queue := rest } c
      ({ res.1 with chunks := store res.1.chunks res.2.1.id res.2.1 }, res.2.2)
  else (p, [])

/-- One entry of the timeout sweep of Go `loop`: re-read the entry for the
id and retry it when it is pending past its deadline (`now.After(deadline)`). -/
def sweepStep (now : Nat) (p : chunkPool) (id : Nat) : chunkPool × List Event :=
  match load p.chunks id with
  | some c =>
    if c.state = reqState.reqPending ∧ c.deadline < now then retry now p id
    else (p, [])
  | none => (p, [])

/-- The body of one timeout sweep of Go `loop`, folded over a snapshot of
the keys of the in-flight map. -/
def sweep (now : Nat) : List Nat → chunkPool → chunkPool × List Event
  | [], p => (p, [])
  | id :: ids, p =>
    ((sweep now ids (sweepStep now p id).1).1,
     (sweepStep now p id).2 ++ (sweep now ids (sweepStep now p id).1).2)

/-- One tick of Go `loop` (the timeout loop): sweep the in-flight map and
retry every pending chunk whose deadline has passed. -/
def loopStep (now : Nat) (p : chunkPool) : chunkPool × List Event :=
  sweep now (p.chunks.map (fun e => e.1)) p

/-- Go `chunkPool.start()`: make a fresh open `term` channel (the spawned
loops are modeled by the step functions above). -/
def start (p : chunkPool) : chunkPool :=
  { p with term := some false }

/-- Go `chunkPool.stop()`: no-op before `start` (`term = nil`) and after a
previous stop (the select sees the closed channel); otherwise close `term`
and wait for both loops, whose exit path (the deferred Range/Delete in
`taskLoop`) empties the in-flight map without callbacks. -/
def stop (p : chunkPool) : chunkPool × List Event :=
  match p.term with
  | none => (p, [])
  | some true => (p, [])
  | some false => ({ p with term := some true, chunks := [] }, [])

/-- The atomic state transitions a running pool can take: the public entry
points, one tick of either loop, and an inbound message. -/
inductive PoolStep : chunkPool → chunkPool → Prop where
  | addStep (p p' : chunkPool) (f t : Nat) (h : add p f t = some p') :
      PoolStep p p'
  | execStep (p p' : chunkPool) (r now f t : Nat) (evs : List Event)
      (h : exec r now p f t = some (p', evs)) : PoolStep p p'
  | taskStep (p : chunkPool) (r now : Nat) :
      PoolStep p (taskLoopStep r now p).1
  | timeoutStep (p : chunkPool) (now : Nat) :
      PoolStep p (loopStep now p).1
  | handleStep (p : chunkPool) (now : Nat) (msg : Msg) :
      PoolStep p (Handle now p msg).1
  | retryStep (p : chunkPool) (now id : Nat) :
      PoolStep p (retry now p id).1
  | thresholdStep (p : chunkPool) (current : Nat) :
      PoolStep p (threshold p current)
  | startStep (p : chunkPool) : PoolStep p (start p)
  | stopStep (p : chunkPool) : PoolStep p (stop p).1

/-- The states a pool reaches from `newChunkPool` under any interleaving of
the atomic transitions. -/
def Reachable (pick : Nat → List Nat) (p : chunkPool) : Prop :=
  Relation.ReflTransGen PoolStep (newChunkPool pick) p

/-! ## The pool invariant and its preservation -/

/-- Every chunk stored in the in-flight map is in state pending or error
(the respond, waiting, done and cancelled states never occur there). -/
def InvState (p : chunkPool) : Prop :=
  ∀ e ∈ p.chunks, e.2.state = reqState.reqPending ∨ e.2.state = reqState.reqError

/-- Every queued chunk and every in-flight chunk has a receive count within
the width of its interval. -/
def InvCount (p : chunkPool) : Prop :=
  (∀ c ∈ p.queue, c.count ≤ c.to_ - c.from_ + 1) ∧
  (∀ e ∈ p.chunks, e.2.count ≤ e.2.to_ - e.2.from_ + 1)

/-- The combined reachability invariant of the pool. -/
def Inv (p : chunkPool) : Prop := InvState p ∧ InvCount p

/-! ## Concrete pools and messages used by witnesses and counterexamples -/

/-- A peer selector that never finds a peer. -/
def pickEmpty : Nat → List Nat := fun _ => []

/-- A peer selector with the single peer 7. -/
def pickOne : Nat → List Nat := fun _ => [7]

/-- A peer selector with the two peers 7 and 8. -/
def pickTwo : Nat → List Nat := fun _ => [7, 8]

/-- A dispatched in-flight chunk for `[41,60]`, assigned to peer 7, with 4
snapshot blocks already counted. -/
def wChunk : chunkRequest :=
  { id := 5, from_ := 41, to_ := 60, peer := some 7, state := reqState.reqPending,
    deadline := 3, msg := { Start := 41, End := 60 }, count := 4 }

/-- A running pool holding `wChunk` in flight, with target 100. -/
def wPool : chunkPool :=
  { pick := pickTwo, queue := [], chunks := [(5, wChunk)], target := 100,
    should := true, term := some false, nextId := 6 }

/-- The pool reached by `threshold 0; add 1 20; one dispatch tick` with no
peer available: the dispatched chunk is caught and stays in the map. -/
def c2Pool : chunkPool :=
  (taskLoopStep 0 0
    ((add (threshold (newChunkPool pickEmpty) 0) 1 20).getD
      (newChunkPool pickEmpty))).1

/-- The error chunk left in the map of `c2Pool` under id 0. -/
def c2ErrChunk : chunkRequest := (load c2Pool.chunks 0).getD wChunk

/-- The pool reached by `threshold 0; add 81 100; one dispatch tick` with
peer 7 available: target is 100. -/
def c3Pool : chunkPool :=
  (taskLoopStep 0 0
    ((add (threshold (newChunkPool pickOne) 0) 81 100).getD
      (newChunkPool pickOne))).1

/-- `c3Pool` after `exec 1 20`: the later dispatch lowers target to 20. -/
def c3Pool2 : chunkPool := ((exec 0 0 c3Pool 1 20).getD (c3Pool, [])).1

/-- The pool reached by `threshold 0; add 1 20; one dispatch tick` with peer
7 available: one pending chunk for `[1,20]` with count 0 in the map. -/
def c4Pool : chunkPool :=
  (taskLoopStep 0 0
    ((add (threshold (newChunkPool pickOne) 0) 1 20).getD
      (newChunkPool pickOne))).1

/-- The in-flight chunk of `c4Pool` (id 0). -/
def c4Chunk : chunkRequest := (load c4Pool.chunks 0).getD wChunk

/-- A response carrying 21 snapshot blocks: one more than the width of the
chunk `[1,20]`. -/
def res21 : SubLedger := { ABlocks := [], SBlocks := List.range 21 }

/-- A well-formed `SubLedgerCode` message whose payload is `res21`. -/
def msg21 : Msg := { cmd := SubLedgerCode, id := 0, payload := some res21 }

/-- A `SubLedgerCode` message whose payload fails to deserialize. -/
def badMsg : Msg := { cmd := SubLedgerCode, id := 5, payload := none }

/-- A small decoded response: two account blocks and one snapshot block. -/
def res2 : SubLedger := { ABlocks := [3, 4], SBlocks := [9] }

/-- A well-formed `SubLedgerCode` message whose payload is `res2`. -/
def okMsg : Msg := { cmd := SubLedgerCode, id := 5, payload := some res2 }

/-- `wPool` after `exec 100 110`: the chunk is dispatched but not tracked. -/
def c10Pool : chunkPool := ((exec 0 0 wPool 100 110).getD (wPool, [])).1

/-- The events emitted by that `exec` call. -/
def c10Evs : List Event := ((exec 0 0 wPool 100 110).getD (wPool, [])).2

lemma isChunkPartition_nil (f t : Nat) : ¬ IsChunkPartition f t [] :=
  fun h => h

lemma isChunkPartition_cons (f t lo hi : Nat) (rest : List (Nat × Nat)) :
    IsChunkPartition f t ((lo, hi) :: rest) ↔
      lo = f ∧ ((rest = [] ∧ hi = t ∧ t < f + chunk) ∨
                (hi = f + (chunk - 1) ∧ hi < t ∧ IsChunkPartition (hi + 1) t rest)) :=
  Iff.rfl

lemma isChunkPartition_unique (t : Nat) :
    ∀ (l₁ : List (Nat × Nat)) (f : Nat) (l₂ : List (Nat × Nat)),
      IsChunkPartition f t l₁ → IsChunkPartition f t l₂ → l₁ = l₂ := by
  have hcw : chunk = 20 := rfl
  intro l₁
  induction l₁ with
  | nil => intro f l₂ h1 _; exact absurd h1 (isChunkPartition_nil f t)
  | cons p₁ r₁ ih =>
    intro f l₂ h1 h2
    obtain ⟨lo₁, hi₁⟩ := p₁
    cases l₂ with
    | nil => exact absurd h2 (isChunkPartition_nil f t)
    | cons p₂ r₂ =>
      obtain ⟨lo₂, hi₂⟩ := p₂
      rw [isChunkPartition_cons] at h1 h2
      obtain ⟨hlo₁, hrest₁⟩ := h1
      obtain ⟨hlo₂, hrest₂⟩ := h2
      rcases hrest₁ with ⟨he₁, hhi₁, hlt₁⟩ | ⟨hhi₁, hlt₁, hrec₁⟩ <;>
        rcases hrest₂ with ⟨he₂, hhi₂, hlt₂⟩ | ⟨hhi₂, hlt₂, hrec₂⟩
      · subst he₁; subst he₂
        have h1 : lo₁ = lo₂ := by omega
        have h2 : hi₁ = hi₂ := by omega
        rw [h1, h2]
      · exfalso; omega
      · exfalso; omega
      · have hl : lo₁ = lo₂ := by omega
        have hh : hi₁ = hi₂ := by omega
        have hr : r₁ = r₂ := by
          refine ih (hi₁ + 1) r₂ ?_ ?_
          · rw [hhi₁] at hrec₁ ⊢; exact hrec₁
          · rw [hh, hhi₂] at hrec₁ ⊢
            rw [hhi₂] at hrec₂; exact hrec₂
        rw [hl, hh, hr]

lemma isChunkPartition_bounds (t : Nat) :
    ∀ (l : List (Nat × Nat)) (f : Nat), f ≤ t → IsChunkPartition f t l →
      ∀ pr ∈ l, f ≤ pr.1 ∧ pr.1 ≤ pr.2 ∧ pr.2 ≤ t ∧ pr.2 + 1 ≤ pr.1 + chunk := by
  have hcw : chunk = 20 := rfl
  intro l
  induction l with
  | nil => intro f _ h; exact absurd h (isChunkPartition_nil f t)
  | cons p r ih =>
    intro f hft h pr hpr
    obtain ⟨lo, hi⟩ := p
    rw [isChunkPartition_cons] at h
    obtain ⟨hlo, hrest⟩ := h
    rw [List.mem_cons] at hpr
    rcases hpr with hpr | hpr
    · subst hpr
      rcases hrest with ⟨_, hhi, hlt⟩ | ⟨hhi, hlt, _⟩
      · exact ⟨by omega, by omega, by omega, by omega⟩
      · exact ⟨by omega, by omega, by omega, by omega⟩
    · rcases hrest with ⟨he, _, _⟩ | ⟨hhi, hlt, hrec⟩
      · subst he; simp at hpr
      · have hb := ih (hi + 1) (by omega) hrec pr hpr
        exact ⟨by omega, hb.2.1, hb.2.2.1, hb.2.2.2⟩

lemma isChunkPartition_cover (t : Nat) :
    ∀ (l : List (Nat × Nat)) (f : Nat), f ≤ t → IsChunkPartition f t l →
      ∀ h : Nat, (f ≤ h ∧ h ≤ t) ↔ ∃ pr ∈ l, pr.1 ≤ h ∧ h ≤ pr.2 := by
  have hcw : chunk = 20 := rfl
  intro l
  induction l with
  | nil => intro f _ h; exact absurd h (isChunkPartition_nil f t)
  | cons p r ih =>
    intro f hft hpart h
    obtain ⟨lo, hi⟩ := p
    rw [isChunkPartition_cons] at hpart
    obtain ⟨hlo, hrest⟩ := hpart
    constructor
    · rintro ⟨hfh, hht⟩
      rcases hrest with ⟨he, hhi, _⟩ | ⟨hhi, hlt, hrec⟩
      · exact ⟨(lo, hi), by simp, by omega, by omega⟩
      · by_cases hcase : h ≤ hi
        · exact ⟨(lo, hi), by simp, by omega, hcase⟩
        · obtain ⟨pr, hpr, hcov⟩ :=
            ((ih (hi + 1) (by omega) hrec h).mp ⟨by omega, hht⟩)
          exact ⟨pr, by simp [hpr], hcov⟩
    · rintro ⟨pr, hpr, hc1, hc2⟩
      rw [List.mem_cons] at hpr
      rcases hpr with hpr | hpr
      · subst hpr
        rcases hrest with ⟨_, hhi, _⟩ | ⟨hhi, hlt, _⟩
        · exact ⟨by omega, by omega⟩
        · exact ⟨by omega, by omega⟩
      · rcases hrest with ⟨he, _, _⟩ | ⟨hhi, hlt, hrec⟩
        · subst he; simp at hpr
        · have hb := isChunkPartition_bounds t r (hi + 1) (by omega) hrec pr hpr
          exact ⟨by omega, by omega⟩

lemma chunkTo_clamped (t f : Nat) (h2 : t + chunk ≤ U64) (h3 : f ≤ t)
    (h4 : t ≤ f + (chunk - 1)) : chunkTo t f = t := by
  have hcw : chunk = 20 := rfl
  have hU : (2 : Nat) ^ 64 = U64 := rfl
  unfold chunkTo
  have hmod : (f + chunk - 1) % U64 = f + chunk - 1 := Nat.mod_eq_of_lt (by omega)
  rw [hmod]
  by_cases hx : t < f + chunk - 1
  · simp [hx]
  · simp [hx]; omega

lemma chunkTo_full (t f : Nat) (h2 : t + chunk ≤ U64)
    (h4 : f + (chunk - 1) < t) : chunkTo t f = f + (chunk - 1) := by
  have hcw : chunk = 20 := rfl
  have hU : (2 : Nat) ^ 64 = U64 := rfl
  unfold chunkTo
  have hmod : (f + chunk - 1) % U64 = f + chunk - 1 := Nat.mod_eq_of_lt (by omega)
  rw [hmod]
  have : ¬ t < f + chunk - 1 := by omega
  simp [this]; omega

lemma splitChunkGo_exhausted (t f fuel : Nat) (h : t < f) :
    splitChunkGo t f fuel = some [] := by
  cases fuel with
  | zero => simp [splitChunkGo, h]
  | succ fuel => simp [splitChunkGo, h]

lemma splitChunkGo_spec (t : Nat) (ht : t + chunk ≤ U64) :
    ∀ (fuel f : Nat), f ≤ t → (t - f) / chunk < fuel →
      ∃ l, splitChunkGo t f fuel = some l ∧ IsChunkPartition f t l := by
  have hcw : chunk = 20 := rfl
  have hU : (2 : Nat) ^ 64 = U64 := rfl
  intro fuel
  induction fuel with
  | zero => intro f _ hfuel; exact absurd hfuel (Nat.not_lt_zero _)
  | succ fuel ih =>
    intro f hft hfuel
    have hstep : splitChunkGo t f (fuel + 1)
        = (splitChunkGo t ((chunkTo t f + 1) % U64) fuel).map
            (fun rest => (f, chunkTo t f) :: rest) := by
      rw [splitChunkGo]
      rw [if_neg (by omega : ¬ t < f)]
    by_cases hlast : t ≤ f + (chunk - 1)
    · -- final interval: cTo is clamped to t (or equals it exactly)
      have hcTo := chunkTo_clamped t f ht hft hlast
      have hnext : (t + 1) % U64 = t + 1 := Nat.mod_eq_of_lt (by omega)
      refine ⟨[(f, t)], ?_, ?_⟩
      · rw [hstep, hcTo, hnext, splitChunkGo_exhausted t (t + 1) fuel (by omega)]
        rfl
      · exact ⟨rfl, Or.inl ⟨rfl, rfl, by omega⟩⟩
    · -- interior interval of width exactly chunk
      push_neg at hlast
      have hcTo := chunkTo_full t f ht hlast
      have hnext : (f + (chunk - 1) + 1) % U64 = f + chunk := by
        have he : f + (chunk - 1) + 1 = f + chunk := by omega
        rw [he]; exact Nat.mod_eq_of_lt (by omega)
      have hrec : (t - (f + chunk)) / chunk < fuel := by
        have h20 : t - f = (t - (f + chunk)) + chunk := by omega
        have hdiv : (t - f) / chunk = (t - (f + chunk)) / chunk + 1 := by
          rw [h20, Nat.add_div_right _ (by omega)]
        omega
      obtain ⟨l, hl, hpart⟩ := ih (f + chunk) (by omega) hrec
      refine ⟨(f, f + (chunk - 1)) :: l, ?_, ?_⟩
      · rw [hstep, hcTo, hnext, hl]; rfl
      · refine ⟨rfl, Or.inr ⟨rfl, by omega, ?_⟩⟩
        have he : f + (chunk - 1) + 1 = f + chunk := by omega
        rw [he]; exact hpart

/-- C1 counterexample.  At `from = 2^64 - 5, to = 2^64 - 1` (a nonempty
range, so the claim demands a partition of it), the uint64 computation
`cTo = from + chunk - 1` wraps around to 14, the clamp `cTo > to` does not
fire, and the loop overruns the 1-slot array: the Go code panics instead of
returning a partition.  In the model the panic is the value `none`. -/
theorem splitChunk_claim_cex :
    splitChunk (2 ^ 64 - 5) (2 ^ 64 - 1) = none ∧
    (2 ^ 64 - 5 : Nat) ≤ 2 ^ 64 - 1 ∧ (0 : Nat) < 2 ^ 64 - 1 := by
  refine ⟨?_, by decide, by decide⟩
  rfl

/-- C1 (amended).  Provided `to + chunk ≤ 2^64` — so that no uint64
wraparound occurs — `splitChunk` returns the empty list when `from > to` or
`to = 0`, and otherwise returns the unique partition of `[from,to]` into
consecutive ascending intervals: the first starts at `from`, every interval
but the last has width exactly `chunk = 20`, each next interval starts at
the previous `hi + 1`, the last ends at `to`; the intervals have width at
most 20 and cover `[from,to]` exactly. -/
theorem splitChunk_partition (f t : Nat) (hb : t + chunk ≤ U64) :
    ((t < f ∨ t = 0) → splitChunk f t = some []) ∧
    (f ≤ t → 0 < t →
      ∃ l, splitChunk f t = some l ∧ IsChunkPartition f t l ∧
        (∀ l', IsChunkPartition f t l' → l' = l) ∧
        (∀ h : Nat, (f ≤ h ∧ h ≤ t) ↔ ∃ pr ∈ l, pr.1 ≤ h ∧ h ≤ pr.2) ∧
        (∀ pr ∈ l, pr.1 ≤ pr.2 ∧ pr.2 + 1 ≤ pr.1 + chunk)) := by
  constructor
  · intro h
    unfold splitChunk
    simp [h]
  · intro hft ht
    have hcond : ¬ (t < f ∨ t = 0) := by omega
    obtain ⟨l, hl, hpart⟩ :=
      splitChunkGo_spec t hb ((t - f) / chunk + 1) f hft (Nat.lt_succ_self _)
    refine ⟨l, ?_, hpart, ?_, ?_, ?_⟩
    · unfold splitChunk; simp only [hcond, if_neg, if_false]; exact hl
    · intro l' hl'
      exact isChunkPartition_unique t l' f l hl' hpart
    · exact isChunkPartition_cover t l f hft hpart
    · intro pr hpr
      have hb2 := isChunkPartition_bounds t l f hft hpart pr hpr
      exact ⟨hb2.2.1, hb2.2.2.2⟩

/-- C1 witness: the amended theorem applied at `from = 1, to = 50`. -/
theorem splitChunk_partition_witness :
    (50 + chunk ≤ U64) ∧
    (((50 : Nat) < 1 ∨ (50 : Nat) = 0 → splitChunk 1 50 = some []) ∧
     ((1 : Nat) ≤ 50 → (0 : Nat) < 50 →
       ∃ l, splitChunk 1 50 = some l ∧ IsChunkPartition 1 50 l ∧
         (∀ l', IsChunkPartition 1 50 l' → l' = l) ∧
         (∀ h : Nat, (1 ≤ h ∧ h ≤ 50) ↔ ∃ pr ∈ l, pr.1 ≤ h ∧ h ≤ pr.2) ∧
         (∀ pr ∈ l, pr.1 ≤ pr.2 ∧ pr.2 + 1 ≤ pr.1 + chunk))) :=
  ⟨by decide, splitChunk_partition 1 50 (by decide)⟩

/-! ## Association-list map lemmas -/

lemma load_store (m : List (Nat × chunkRequest)) (id : Nat) (c : chunkRequest) :
    load (store m id c) id = some c := by
  simp [store, load]

lemma delete_delete (m : List (Nat × chunkRequest)) (id : Nat) :
    delete (delete m id) id = delete m id := by
  induction m with
  | nil => rfl
  | cons e m ih =>
    by_cases h : e.1 = id <;> simp [delete, h, ih]

lemma delete_store (m : List (Nat × chunkRequest)) (id : Nat) (c : chunkRequest) :
    delete (store m id c) id = delete m id := by
  simp [store, delete, delete_delete]

lemma load_delete (m : List (Nat × chunkRequest)) (id : Nat) :
    load (delete m id) id = none := by
  induction m with
  | nil => rfl
  | cons e m ih =>
    by_cases h : e.1 = id <;> simp [delete, load, h, ih]

lemma mem_delete (m : List (Nat × chunkRequest)) (id : Nat)
    (e : Nat × chunkRequest) (h : e ∈ delete m id) : e ∈ m := by
  induction m with
  | nil => exact absurd h (by simp [delete])
  | cons e' m ih =>
    by_cases h' : e'.1 = id
    · simp only [delete, if_pos h'] at h
      exact List.mem_cons_of_mem _ (ih h)
    · simp only [delete, if_neg h', List.mem_cons] at h
      rcases h with h | h
      · simp [h]
      · exact List.mem_cons_of_mem _ (ih h)

lemma mem_store (m : List (Nat × chunkRequest)) (id : Nat) (c : chunkRequest)
    (e : Nat × chunkRequest) (h : e ∈ store m id c) :
    e = (id, c) ∨ e ∈ m := by
  simp only [store, List.mem_cons] at h
  rcases h with h | h
  · exact Or.inl h
  · exact Or.inr (mem_delete m id e h)

lemma load_mem (m : List (Nat × chunkRequest)) (id : Nat) (c : chunkRequest)
    (h : load m id = some c) : (id, c) ∈ m := by
  induction m with
  | nil => exact absurd h (by simp [load])
  | cons e m ih =>
    by_cases h' : e.1 = id
    · simp only [load, if_pos h', Option.some.injEq] at h
      have : (id, c) = e := by
        obtain ⟨k, v⟩ := e
        simp_all
      simp [this]
    · simp only [load, if_neg h'] at h
      exact List.mem_cons_of_mem _ (ih h)

/-! ## Unfolding lemmas for `request`, `retry`, `Handle`, `done`, `sweepStep` -/

lemma request_peer_some (r now : Nat) (p : chunkPool) (c : chunkRequest)
    (pk : Nat) (h : c.peer = some pk) :
    request r now p c = doSend now { p with target := c.to_ } c := by
  unfold request
  rw [h]

lemma request_peer_none_nil (r now : Nat) (p : chunkPool) (c : chunkRequest)
    (h1 : c.peer = none) (h2 : p.pick c.to_ = []) :
    request r now p c = (p, (catchReq c).1, (catchReq c).2) := by
  unfold request
  rw [h1, h2]

lemma request_peer_none_cons (r now : Nat) (p : chunkPool) (c : chunkRequest)
    (q : Nat) (qs : List Nat) (h1 : c.peer = none) (h2 : p.pick c.to_ = q :: qs) :
    request r now p c =
      doSend now { p with target := c.to_ }
        { c with peer := some ((q :: qs).getD (r % (q :: qs).length) q) } := by
  unfold request
  rw [h1, h2]

lemma request_chunks (r now : Nat) (p : chunkPool) (c : chunkRequest) :
    (request r now p c).1.chunks = p.chunks ∧
    (request r now p c).1.queue = p.queue ∧
    (request r now p c).1.pick = p.pick ∧
    (request r now p c).1.should = p.should ∧
    (request r now p c).1.term = p.term ∧
    (request r now p c).1.nextId = p.nextId := by
  rcases hc : c.peer with _ | pk
  · rcases hl : p.pick c.to_ with _ | ⟨q, qs⟩
    · rw [request_peer_none_nil r now p c hc hl]
      exact ⟨rfl, rfl, rfl, rfl, rfl, rfl⟩
    · rw [request_peer_none_cons r now p c q qs hc hl]
      exact ⟨rfl, rfl, rfl, rfl, rfl, rfl⟩
  · rw [request_peer_some r now p c pk hc]
    exact ⟨rfl, rfl, rfl, rfl, rfl, rfl⟩

lemma request_chunk_fields (r now : Nat) (p : chunkPool) (c : chunkRequest) :
    ((request r now p c).2.1.state = reqState.reqPending ∨
     (request r now p c).2.1.state = reqState.reqError) ∧
    (request r now p c).2.1.count = c.count ∧
    (request r now p c).2.1.id = c.id ∧
    (request r now p c).2.1.from_ = c.from_ ∧
    (request r now p c).2.1.to_ = c.to_ := by
  rcases hc : c.peer with _ | pk
  · rcases hl : p.pick c.to_ with _ | ⟨q, qs⟩
    · rw [request_peer_none_nil r now p c hc hl]
      exact ⟨Or.inr rfl, rfl, rfl, rfl, rfl⟩
    · rw [request_peer_none_cons r now p c q qs hc hl]
      exact ⟨Or.inl rfl, rfl, rfl, rfl, rfl⟩
  · rw [request_peer_some r now p c pk hc]
    exact ⟨Or.inl rfl, rfl, rfl, rfl, rfl⟩

lemma retry_absent (now : Nat) (p : chunkPool) (id : Nat)
    (h : load p.chunks id = none) : retry now p id = (p, []) := by
  unfold retry
  rw [h]

lemma retry_present_none (now : Nat) (p : chunkPool) (id : Nat)
    (c : chunkRequest) (h : load p.chunks id = some c)
    (hpd : pickDiff (p.pick c.to_) c.peer = none) :
    retry now p id =
      ({ p with
          chunks :=
            store p.chunks id { c with peer := none, state := reqState.reqError } },
       [Event.catchPiece c.from_ c.to_]) := by
  unfold retry
  simp only [h]
  rw [hpd]
  rfl

lemma retry_present_some (now : Nat) (p : chunkPool) (id : Nat)
    (c : chunkRequest) (pk : Nat) (h : load p.chunks id = some c)
    (hpd : pickDiff (p.pick c.to_) c.peer = some pk) :
    retry now p id =
      ({ p with
          chunks :=
            store p.chunks id
              { c with peer := some pk, deadline := now + chunkTimeout,
                       state := reqState.reqPending } },
       [Event.send pk c.id c.msg.Start c.msg.End]) := by
  unfold retry
  simp only [h]
  rw [hpd]
  rfl

lemma done_found (p : chunkPool) (id : Nat) (c : chunkRequest)
    (h : load p.chunks id = some c) :
    done p id = { p with chunks := delete p.chunks id } := by
  unfold done
  rw [h]

lemma Handle_decode_fail (now : Nat) (p : chunkPool) (msg : Msg)
    (h1 : msg.cmd = SubLedgerCode) (h2 : msg.payload = none) :
    Handle now p msg = ((retry now p msg.id).1, (retry now p msg.id).2, some ()) := by
  unfold Handle
  rw [if_pos h1, h2]

lemma Handle_bad_cmd (now : Nat) (p : chunkPool) (msg : Msg)
    (h1 : ¬ msg.cmd = SubLedgerCode) :
    Handle now p msg = ((retry now p msg.id).1, (retry now p msg.id).2, none) := by
  unfold Handle
  rw [if_neg h1]

lemma Handle_unknown_id (now : Nat) (p : chunkPool) (msg : Msg) (res : SubLedger)
    (h1 : msg.cmd = SubLedgerCode) (h2 : msg.payload = some res)
    (h3 : load p.chunks msg.id = none) :
    Handle now p msg = (p, handleEvents res, none) := by
  unfold Handle
  rw [if_pos h1, h2, h3]

lemma Handle_complete (now : Nat) (p : chunkPool) (msg : Msg) (res : SubLedger)
    (c : chunkRequest) (h1 : msg.cmd = SubLedgerCode) (h2 : msg.payload = some res)
    (h3 : load p.chunks msg.id = some c)
    (h4 : c.to_ - c.from_ + 1 ≤ c.count + res.SBlocks.length) :
    Handle now p msg =
      (done
        { p with
          chunks :=
            store p.chunks msg.id { c with count := c.count + res.SBlocks.length } }
        msg.id,
       handleEvents res, none) := by
  unfold Handle
  rw [if_pos h1, h2, h3]
  show (if c.to_ - c.from_ + 1 ≤ c.count + res.SBlocks.length then _ else _) = _
  rw [if_pos h4]

lemma Handle_incomplete (now : Nat) (p : chunkPool) (msg : Msg) (res : SubLedger)
    (c : chunkRequest) (h1 : msg.cmd = SubLedgerCode) (h2 : msg.payload = some res)
    (h3 : load p.chunks msg.id = some c)
    (h4 : ¬ c.to_ - c.from_ + 1 ≤ c.count + res.SBlocks.length) :
    Handle now p msg =
      ({ p with
          chunks :=
            store p.chunks msg.id { c with count := c.count + res.SBlocks.length } },
       handleEvents res, none) := by
  unfold Handle
  rw [if_pos h1, h2, h3]
  show (if c.to_ - c.from_ + 1 ≤ c.count + res.SBlocks.length then _ else _) = _
  rw [if_neg h4]

lemma sweepStep_absent (now : Nat) (p : chunkPool) (id : Nat)
    (h : load p.chunks id = none) : sweepStep now p id = (p, []) := by
  unfold sweepStep
  rw [h]

lemma sweepStep_found (now : Nat) (p : chunkPool) (id : Nat) (c : chunkRequest)
    (h : load p.chunks id = some c) :
    sweepStep now p id =
      if c.state = reqState.reqPending ∧ c.deadline < now then retry now p id
      else (p, []) := by
  unfold sweepStep
  rw [h]

lemma inv_of_same_maps (p p' : chunkPool) (hq : p'.queue = p.queue)
    (hc : p'.chunks = p.chunks) (h : Inv p) : Inv p' := by
  obtain ⟨hs, hq0, hc0⟩ := h
  exact ⟨fun e he => hs e (hc ▸ he),
         fun c hcq => hq0 c (hq ▸ hcq),
         fun e he => hc0 e (hc ▸ he)⟩

lemma retry_inv (now : Nat) (p : chunkPool) (id : Nat) (h : Inv p) :
    Inv (retry now p id).1 := by
  rcases hload : load p.chunks id with _ | c
  · rw [retry_absent now p id hload]; exact h
  · have hmem := load_mem p.chunks id c hload
    rcases hpd : pickDiff (p.pick c.to_) c.peer with _ | pk
    · rw [retry_present_none now p id c hload hpd]
      refine ⟨?_, h.2.1, ?_⟩
      · intro e he
        rcases mem_store _ _ _ e he with rfl | he'
        · exact Or.inr rfl
        · exact h.1 e he'
      · intro e he
        rcases mem_store _ _ _ e he with rfl | he'
        · exact h.2.2 (id, c) hmem
        · exact h.2.2 e he'
    · rw [retry_present_some now p id c pk hload hpd]
      refine ⟨?_, h.2.1, ?_⟩
      · intro e he
        rcases mem_store _ _ _ e he with rfl | he'
        · exact Or.inl rfl
        · exact h.1 e he'
      · intro e he
        rcases mem_store _ _ _ e he with rfl | he'
        · exact h.2.2 (id, c) hmem
        · exact h.2.2 e he'

lemma enqueue_fold_inv (cs : List (Nat × Nat)) :
    ∀ p : chunkPool, Inv p → Inv (cs.foldl enqueueChunk p) := by
  induction cs with
  | nil => intro p h; exact h
  | cons pr cs ih =>
    intro p h
    refine ih _ ⟨h.1, ?_, h.2.2⟩
    intro c hc
    simp only [enqueueChunk, List.mem_append, List.mem_singleton] at hc
    rcases hc with hc | hc
    · exact h.2.1 c hc
    · rw [hc]; exact Nat.zero_le _

lemma add_inv (p p' : chunkPool) (f t : Nat) (h : add p f t = some p')
    (hi : Inv p) : Inv p' := by
  unfold add at h
  rcases hs : splitChunk f t with _ | cs
  · rw [hs] at h; exact absurd h (by simp)
  · rw [hs] at h
    replace h : some (cs.foldl enqueueChunk p) = some p' := h
    injection h with h
    rw [← h]
    exact enqueue_fold_inv cs p hi

lemma exec_fold_frame (r now : Nat) (cs : List (Nat × Nat)) :
    ∀ acc : chunkPool × List Event,
      (cs.foldl (execChunk r now) acc).1.chunks = acc.1.chunks ∧
      (cs.foldl (execChunk r now) acc).1.queue = acc.1.queue := by
  induction cs with
  | nil => intro acc; exact ⟨rfl, rfl⟩
  | cons pr cs ih =>
    intro acc
    have hreq := request_chunks r now { acc.1 with nextId := acc.1.nextId + 1 }
      (mkChunkRequest acc.1.nextId pr)
    have hstep := ih (execChunk r now acc pr)
    simp only [List.foldl_cons]
    refine ⟨?_, ?_⟩
    · rw [hstep.1]
      show (request r now { acc.1 with nextId := acc.1.nextId + 1 }
        (mkChunkRequest acc.1.nextId pr)).1.chunks = acc.1.chunks
      rw [hreq.1]
    · rw [hstep.2]
      show (request r now { acc.1 with nextId := acc.1.nextId + 1 }
        (mkChunkRequest acc.1.nextId pr)).1.queue = acc.1.queue
      rw [hreq.2.1]

lemma exec_frame (r now f t : Nat) (p p' : chunkPool) (evs : List Event)
    (h : exec r now p f t = some (p', evs)) :
    p'.chunks = p.chunks ∧ p'.queue = p.queue := by
  unfold exec at h
  rcases hs : splitChunk f t with _ | cs
  · rw [hs] at h; exact absurd h (by simp)
  · rw [hs] at h
    replace h : some (cs.foldl (execChunk r now) (p, [])) = some (p', evs) := h
    injection h with h
    have hf := exec_fold_frame r now cs (p, [])
    rw [h] at hf
    exact hf

lemma exec_inv (r now f t : Nat) (p p' : chunkPool) (evs : List Event)
    (h : exec r now p f t = some (p', evs)) (hi : Inv p) : Inv p' := by
  have hf := exec_frame r now f t p p' evs h
  exact inv_of_same_maps p p' hf.2 hf.1 hi

lemma task_inv (r now : Nat) (p : chunkPool) (h : Inv p) :
    Inv (taskLoopStep r now p).1 := by
  unfold taskLoopStep
  by_cases hs : p.should
  · rw [if_pos hs]
    rcases hq : p.queue with _ | ⟨c, rest⟩
    · exact h
    · have hhead : c ∈ p.queue := by rw [hq]; exact List.mem_cons_self c rest
      have hreq := request_chunks r now { p with queue := rest } c
      have hch := request_chunk_fields r now { p with queue := rest } c
      refine ⟨?_, ?_, ?_⟩
      · intro e he
        simp only at he
        rcases mem_store _ _ _ e he with rfl | he'
        · exact hch.1
        · rw [hreq.1] at he'
          exact h.1 e he'
      · intro c' hc'
        simp only [hreq.2.1] at hc'
        exact h.2.1 c' (by rw [hq]; exact List.mem_cons_of_mem c hc')
      · intro e he
        simp only at he
        rcases mem_store _ _ _ e he with rfl | he'
        · simp only [hch.2.1, hch.2.2.2.1, hch.2.2.2.2]
          exact h.2.1 c hhead
        · rw [hreq.1] at he'
          exact h.2.2 e he'
  · rw [if_neg hs]; exact h

lemma handle_inv (now : Nat) (p : chunkPool) (msg : Msg) (h : Inv p) :
    Inv (Handle now p msg).1 := by
  by_cases hc : msg.cmd = SubLedgerCode
  · rcases hpay : msg.payload with _ | res
    · rw [Handle_decode_fail now p msg hc hpay]
      exact retry_inv now p msg.id h
    · rcases hload : load p.chunks msg.id with _ | c
      · rw [Handle_unknown_id now p msg res hc hpay hload]
        exact h
      · have hmem := load_mem p.chunks msg.id c hload
        by_cases hfull : c.to_ - c.from_ + 1 ≤ c.count + res.SBlocks.length
        · rw [Handle_complete now p msg res c hc hpay hload hfull]
          rw [done_found _ msg.id { c with count := c.count + res.SBlocks.length }
            (load_store _ _ _)]
          simp only [delete_store]
          refine ⟨?_, h.2.1, ?_⟩
          · intro e he
            exact h.1 e (mem_delete _ _ e he)
          · intro e he
            exact h.2.2 e (mem_delete _ _ e he)
        · rw [Handle_incomplete now p msg res c hc hpay hload hfull]
          refine ⟨?_, h.2.1, ?_⟩
          · intro e he
            rcases mem_store _ _ _ e he with rfl | he'
            · exact h.1 (msg.id, c) hmem
            · exact h.1 e he'
          · intro e he
            rcases mem_store _ _ _ e he with rfl | he'
            · show c.count + res.SBlocks.length ≤ c.to_ - c.from_ + 1
              omega
            · exact h.2.2 e he'
  · rw [Handle_bad_cmd now p msg hc]
    exact retry_inv now p msg.id h

lemma sweepStep_inv (now : Nat) (p : chunkPool) (id : Nat) (h : Inv p) :
    Inv (sweepStep now p id).1 := by
  rcases hload : load p.chunks id with _ | c
  · rw [sweepStep_absent now p id hload]; exact h
  · rw [sweepStep_found now p id c hload]
    by_cases hcond : c.state = reqState.reqPending ∧ c.deadline < now
    · rw [if_pos hcond]; exact retry_inv now p id h
    · rw [if_neg hcond]; exact h

lemma sweep_inv (now : Nat) (ids : List Nat) :
    ∀ p : chunkPool, Inv p → Inv (sweep now ids p).1 := by
  induction ids with
  | nil => intro p h; exact h
  | cons id ids ih =>
    intro p h
    exact ih _ (sweepStep_inv now p id h)

lemma loop_inv (now : Nat) (p : chunkPool) (h : Inv p) :
    Inv (loopStep now p).1 := by
  unfold loopStep
  exact sweep_inv now (p.chunks.map (fun e => e.1)) p h

lemma threshold_inv (p : chunkPool) (current : Nat) (h : Inv p) :
    Inv (threshold p current) := by
  unfold threshold
  by_cases hc : p.target < (current + 500) % U64
  · rw [if_pos hc]; exact inv_of_same_maps p _ rfl rfl h
  · rw [if_neg hc]; exact inv_of_same_maps p _ rfl rfl h

lemma stop_inv (p : chunkPool) (h : Inv p) : Inv (stop p).1 := by
  unfold stop
  rcases p.term with _ | b
  · exact h
  · cases b
    · refine ⟨?_, h.2.1, ?_⟩ <;> intro e he <;> exact absurd he (by simp)
    · exact h

lemma poolStep_inv (p p' : chunkPool) (hstep : PoolStep p p') (h : Inv p) :
    Inv p' := by
  cases hstep with
  | addStep p' f t hadd => exact add_inv _ p' f t hadd h
  | execStep p' r now f t evs hexec => exact exec_inv r now f t _ p' evs hexec h
  | taskStep r now => exact task_inv r now _ h
  | timeoutStep now => exact loop_inv now _ h
  | handleStep now msg => exact handle_inv now _ msg h
  | retryStep now id => exact retry_inv now _ id h
  | thresholdStep current => exact threshold_inv _ current h
  | startStep => exact inv_of_same_maps p _ rfl rfl h
  | stopStep => exact stop_inv _ h

lemma inv_init (pick : Nat → List Nat) : Inv (newChunkPool pick) := by
  refine ⟨?_, ?_, ?_⟩ <;> intro e he <;> exact absurd he (by simp [newChunkPool])

lemma reachable_inv (pick : Nat → List Nat) (p : chunkPool)
    (h : Reachable pick p) : Inv p := by
  induction h with
  | refl => exact inv_init pick
  | tail _ hstep ih => exact poolStep_inv _ _ hstep ih

/-! ## Further helper lemmas -/

lemma pickDiff_eq_find (l : List Nat) (old : Option Nat) :
    pickDiff l old = l.find? (fun x => !(some x == old)) := by
  induction l with
  | nil => rfl
  | cons x xs ih =>
    by_cases h : some x = old
    · have hb : (some x == old) = true := by simp [h]
      simp [pickDiff, List.find?, h, hb, ih]
    · have hb : (some x == old) = false := by simp [h]
      simp [pickDiff, List.find?, h, hb, ih]

lemma pickDiff_mem_ne (l : List Nat) (old : Option Nat) (pk : Nat)
    (h : pickDiff l old = some pk) : pk ∈ l ∧ some pk ≠ old := by
  induction l with
  | nil => exact absurd h (by simp [pickDiff])
  | cons x xs ih =>
    by_cases hx : some x = old
    · simp only [pickDiff, if_pos hx] at h
      obtain ⟨hm, hne⟩ := ih h
      exact ⟨List.mem_cons_of_mem x hm, hne⟩
    · simp only [pickDiff, if_neg hx, Option.some.injEq] at h
      rw [← h]
      exact ⟨List.mem_cons_self x xs, hx⟩

lemma pickDiff_none (l : List Nat) (old : Option Nat)
    (h : pickDiff l old = none) : ∀ q ∈ l, some q = old := by
  induction l with
  | nil => intro q hq; exact absurd hq (by simp)
  | cons x xs ih =>
    intro q hq
    by_cases hx : some x = old
    · simp only [pickDiff, if_pos hx] at h
      rcases List.mem_cons.mp hq with rfl | hq'
      · exact hx
      · exact ih h q hq'
    · simp only [pickDiff, if_neg hx] at h
      exact absurd h (by simp)

lemma retry_no_recv (now : Nat) (p : chunkPool) (id : Nat) (b : Nat) :
    Event.receiveAccountBlock b ∉ (retry now p id).2 ∧
    Event.receiveSnapshotBlock b ∉ (retry now p id).2 := by
  rcases hload : load p.chunks id with _ | c
  · rw [retry_absent now p id hload]
    simp
  · rcases hpd : pickDiff (p.pick c.to_) c.peer with _ | pk
    · rw [retry_present_none now p id c hload hpd]
      simp
    · rw [retry_present_some now p id c pk hload hpd]
      simp

lemma c2Pool_reachable : Reachable pickEmpty c2Pool := by
  have h1 : PoolStep (newChunkPool pickEmpty) (threshold (newChunkPool pickEmpty) 0) :=
    PoolStep.thresholdStep _ 0
  have h2 : PoolStep (threshold (newChunkPool pickEmpty) 0)
      ((add (threshold (newChunkPool pickEmpty) 0) 1 20).getD (newChunkPool pickEmpty)) :=
    PoolStep.addStep _ _ 1 20 (by rfl)
  have h3 : PoolStep
      ((add (threshold (newChunkPool pickEmpty) 0) 1 20).getD (newChunkPool pickEmpty))
      c2Pool :=
    PoolStep.taskStep _ 0 0
  exact Relation.ReflTransGen.tail
    (Relation.ReflTransGen.tail (Relation.ReflTransGen.single h1) h2) h3

lemma c3Pool_reachable : Reachable pickOne c3Pool := by
  have h1 : PoolStep (newChunkPool pickOne) (threshold (newChunkPool pickOne) 0) :=
    PoolStep.thresholdStep _ 0
  have h2 : PoolStep (threshold (newChunkPool pickOne) 0)
      ((add (threshold (newChunkPool pickOne) 0) 81 100).getD (newChunkPool pickOne)) :=
    PoolStep.addStep _ _ 81 100 (by rfl)
  have h3 : PoolStep
      ((add (threshold (newChunkPool pickOne) 0) 81 100).getD (newChunkPool pickOne))
      c3Pool :=
    PoolStep.taskStep _ 0 0
  exact Relation.ReflTransGen.tail
    (Relation.ReflTransGen.tail (Relation.ReflTransGen.single h1) h2) h3

lemma c3Pool2_reachable : Reachable pickOne c3Pool2 := by
  have h4 : PoolStep c3Pool c3Pool2 :=
    PoolStep.execStep c3Pool c3Pool2 0 0 1 20
      ((exec 0 0 c3Pool 1 20).getD (c3Pool, [])).2 (by rfl)
  exact Relation.ReflTransGen.tail c3Pool_reachable h4

lemma c4Pool_reachable : Reachable pickOne c4Pool := by
  have h1 : PoolStep (newChunkPool pickOne) (threshold (newChunkPool pickOne) 0) :=
    PoolStep.thresholdStep _ 0
  have h2 : PoolStep (threshold (newChunkPool pickOne) 0)
      ((add (threshold (newChunkPool pickOne) 0) 1 20).getD (newChunkPool pickOne)) :=
    PoolStep.addStep _ _ 1 20 (by rfl)
  have h3 : PoolStep
      ((add (threshold (newChunkPool pickOne) 0) 1 20).getD (newChunkPool pickOne))
      c4Pool :=
    PoolStep.taskStep _ 0 0
  exact Relation.ReflTransGen.tail
    (Relation.ReflTransGen.tail (Relation.ReflTransGen.single h1) h2) h3

/-! ## Claim theorems -/

/-- C2 counterexample.  A reachable state in which chunk id 0 is a key of
the inflight map while its state is `error`, not pending or respond: the
dispatch tick stores the chunk in the map before `request`, and `catch`
(called because the selector returned no peer) never removes it.  This
refutes the claimed two-way correspondence. -/
theorem inflight_error_cex :
    Reachable pickEmpty c2Pool ∧
    (load c2Pool.chunks 0).map (fun c => c.state) = some reqState.reqError :=
  ⟨c2Pool_reachable, by rfl⟩

/-- C2 (amended).  At any reachable state of the chunk pool, every chunk in
the inflight map has state pending or error: a chunk caught during dispatch
or retry remains in the map in the error state, and the respond state never
occurs.  (The converse fails too: chunks dispatched by `exec` are pending
but never enter the map.) -/
theorem inflight_state_inv (pick : Nat → List Nat) (p : chunkPool)
    (h : Reachable pick p) :
    ∀ e ∈ p.chunks, e.2.state = reqState.reqPending ∨ e.2.state = reqState.reqError :=
  (reachable_inv pick p h).1

/-- C2 witness: the amended invariant evaluated at the reachable `c2Pool`
and its concrete map entry `(0, c2ErrChunk)`. -/
theorem inflight_state_inv_witness :
    (0, c2ErrChunk).2.state = reqState.reqPending ∨
    (0, c2ErrChunk).2.state = reqState.reqError :=
  inflight_state_inv pickEmpty c2Pool c2Pool_reachable (0, c2ErrChunk) (by decide)

/-- C3 counterexample.  `request` assigns `target = c.to` unconditionally
(`p.target = c.to`), so a later dispatch of a lower chunk decreases the
target: after `add 81 100` is dispatched (target = 100), `exec 1 20`
drops the target to 20, which is not `max 100 20`. -/
theorem target_decrease_cex :
    Reachable pickOne c3Pool2 ∧ c3Pool.target = 100 ∧ c3Pool2.target = 20 ∧
    ¬ (20 : Nat) = max 100 20 :=
  ⟨c3Pool2_reachable, by rfl, by rfl, by decide⟩

/-- C3 (amended).  When `request(c)` dispatches (the chunk already has a
peer, or the selector returns one), the new target is exactly `c.to` — not
`max(old target, c.to)` — so the target decreases whenever a chunk with a
smaller `to` is dispatched later; when no peer is available the chunk is
caught and the target is unchanged. -/
theorem request_target (r now : Nat) (p : chunkPool) (c : chunkRequest) :
    (c.peer = none → p.pick c.to_ = [] → (request r now p c).1.target = p.target) ∧
    (c.peer ≠ none ∨ p.pick c.to_ ≠ [] → (request r now p c).1.target = c.to_) := by
  constructor
  · intro h1 h2
    rw [request_peer_none_nil r now p c h1 h2]
  · intro h
    rcases hc : c.peer with _ | pk
    · rcases hl : p.pick c.to_ with _ | ⟨q, qs⟩
      · rcases h with h | h
        · exact absurd hc h
        · exact absurd hl h
      · rw [request_peer_none_cons r now p c q qs hc hl]
        rfl
    · rw [request_peer_some r now p c pk hc]
      rfl

/-- C3 witness: dispatching `wChunk` (whose peer is assigned) from `wPool`
(target 100) sets the target to `wChunk.to_ = 60`. -/
theorem request_target_witness :
    (request 0 9 wPool wChunk).1.target = wChunk.to_ :=
  (request_target 0 9 wPool wChunk).2 (Or.inl (by decide))

/-- C4 counterexample.  The in-flight chunk `[1,20]` of `c4Pool` has count 0
and width 20; a single response carrying 21 snapshot blocks removes it as
done, so completion is declared at accumulated count 21, not at count =
width = 20 — and the chunk's count field passes 21 > 20 in that step. -/
theorem count_completion_cex :
    Reachable pickOne c4Pool ∧
    (load c4Pool.chunks 0).map (fun c => c.count) = some 0 ∧
    (load c4Pool.chunks 0).map (fun c => c.to_ - c.from_ + 1) = some 20 ∧
    load (Handle 5 c4Pool msg21).1.chunks 0 = none ∧
    (0 + 21 : Nat) ≠ 20 :=
  ⟨c4Pool_reachable, by rfl, by rfl, by rfl, by decide⟩

/-- C4 (amended).  At every reachable state, the count of every tracked
chunk is at most `to - from + 1`; and a handled response removes the chunk
as done exactly when the accumulated count `count + |SBlocks|` reaches AT
LEAST the width (a single over-delivering response jumps past the width
within the removing step, so "exactly at count = width" does not hold). -/
theorem count_inv (pick : Nat → List Nat) (p : chunkPool) (h : Reachable pick p) :
    (∀ e ∈ p.chunks, e.2.count ≤ e.2.to_ - e.2.from_ + 1) ∧
    (∀ (now : Nat) (msg : Msg) (res : SubLedger) (c : chunkRequest),
      msg.cmd = SubLedgerCode → msg.payload = some res →
      load p.chunks msg.id = some c →
      (load (Handle now p msg).1.chunks msg.id = none ↔
        c.to_ - c.from_ + 1 ≤ c.count + res.SBlocks.length)) := by
  refine ⟨(reachable_inv pick p h).2.2, ?_⟩
  intro now msg res c h1 h2 h3
  by_cases hfull : c.to_ - c.from_ + 1 ≤ c.count + res.SBlocks.length
  · rw [Handle_complete now p msg res c h1 h2 h3 hfull]
    rw [done_found _ msg.id { c with count := c.count + res.SBlocks.length }
      (load_store _ _ _)]
    simp only [delete_store]
    constructor
    · intro _; exact hfull
    · intro _; exact load_delete p.chunks msg.id
  · rw [Handle_incomplete now p msg res c h1 h2 h3 hfull]
    constructor
    · intro hnone
      have hnone2 : load (store p.chunks msg.id { c with count := c.count + res.SBlocks.length }) msg.id = none := hnone
      rw [load_store] at hnone2
      exact absurd hnone2 (by simp)
    · intro hge
      exact absurd hge hfull

/-- C4 witness: the amended theorem applied to the reachable `c4Pool` and
the over-delivering message `msg21`. -/
theorem count_inv_witness :
    (∀ e ∈ c4Pool.chunks, e.2.count ≤ e.2.to_ - e.2.from_ + 1) ∧
    (load (Handle 5 c4Pool msg21).1.chunks msg21.id = none ↔
      c4Chunk.to_ - c4Chunk.from_ + 1 ≤ c4Chunk.count + res21.SBlocks.length) :=
  ⟨(count_inv pickOne c4Pool c4Pool_reachable).1,
   (count_inv pickOne c4Pool c4Pool_reachable).2 5 msg21 res21 c4Chunk rfl rfl (by rfl)⟩

/-- C5 counterexample.  On a `SubLedgerCode` message whose payload fails to
deserialize, Go `Handle` executes `return err`: the decode error IS
returned to the caller (modeled as `some ()`), contradicting "does not
propagate the decode error upward". -/
theorem handle_decode_error_cex :
    (Handle 9 wPool badMsg).2.2 = some () ∧ some () ≠ (none : Option Unit) :=
  ⟨by rfl, by decide⟩

/-- C5 (amended).  On a `SubLedgerCode` message whose payload fails to
decode, `Handle` invokes `retry` with the message id, delivers no account
or snapshot block to the receiver — and RETURNS the decode error to its
caller (Go `return err`), rather than swallowing it. -/
theorem handle_decode_failure (now : Nat) (p : chunkPool) (msg : Msg)
    (h1 : msg.cmd = SubLedgerCode) (h2 : msg.payload = none) :
    Handle now p msg = ((retry now p msg.id).1, (retry now p msg.id).2, some ()) ∧
    (Handle now p msg).2.2 ≠ none ∧
    (∀ b : Nat, Event.receiveAccountBlock b ∉ (Handle now p msg).2.1 ∧
                Event.receiveSnapshotBlock b ∉ (Handle now p msg).2.1) := by
  have he := Handle_decode_fail now p msg h1 h2
  refine ⟨he, ?_, ?_⟩
  · rw [he]
    simp
  · intro b
    rw [he]
    exact retry_no_recv now p msg.id b

/-- C5 witness: the amended theorem applied to `wPool` and `badMsg`. -/
theorem handle_decode_failure_witness :
    Handle 9 wPool badMsg =
      ((retry 9 wPool badMsg.id).1, (retry 9 wPool badMsg.id).2, some ()) ∧
    (Handle 9 wPool badMsg).2.2 ≠ none ∧
    (∀ b : Nat, Event.receiveAccountBlock b ∉ (Handle 9 wPool badMsg).2.1 ∧
                Event.receiveSnapshotBlock b ∉ (Handle 9 wPool badMsg).2.1) :=
  handle_decode_failure 9 wPool badMsg rfl rfl

/-- C6 (confirmed).  For every successfully decoded chunk response, the
events issued to the receiver are exactly one `receiveAccountBlock` per
account block followed by one `receiveSnapshotBlock` per snapshot block,
in message order: every account block is delivered strictly before every
snapshot block of the same message. -/
theorem handle_block_order (now : Nat) (p : chunkPool) (msg : Msg)
    (res : SubLedger) (h1 : msg.cmd = SubLedgerCode) (h2 : msg.payload = some res) :
    (Handle now p msg).2.1 =
      res.ABlocks.map Event.receiveAccountBlock ++
      res.SBlocks.map Event.receiveSnapshotBlock := by
  rcases hload : load p.chunks msg.id with _ | c
  · rw [Handle_unknown_id now p msg res h1 h2 hload]
    rfl
  · by_cases hfull : c.to_ - c.from_ + 1 ≤ c.count + res.SBlocks.length
    · rw [Handle_complete now p msg res c h1 h2 hload hfull]
      rfl
    · rw [Handle_incomplete now p msg res c h1 h2 hload hfull]
      rfl

/-- C6 witness: the theorem applied to `wPool` and the message `okMsg`. -/
theorem handle_block_order_witness :
    (Handle 9 wPool okMsg).2.1 =
      res2.ABlocks.map Event.receiveAccountBlock ++
      res2.SBlocks.map Event.receiveSnapshotBlock :=
  handle_block_order 9 wPool okMsg res2 rfl rfl

/-- C7 (confirmed).  `retry(id)` on an id absent from the inflight map is a
no-op.  On a present chunk it scans the freshly picked peers for the first
one different from the previous peer (`pickDiff` is `List.find?` of the
difference test): if one exists it is a member of the picked set, differs
from the old peer, and the chunk is re-dispatched pending with a fresh
deadline, its id and count unchanged; if every picked peer equals the old
one (or none is picked), the chunk is caught as error instead. -/
theorem retry_spec (now : Nat) (p : chunkPool) (id : Nat) :
    (load p.chunks id = none → retry now p id = (p, [])) ∧
    (∀ c, load p.chunks id = some c →
      pickDiff (p.pick c.to_) c.peer =
        (p.pick c.to_).find? (fun x => !(some x == c.peer)) ∧
      (∀ pk, pickDiff (p.pick c.to_) c.peer = some pk →
        pk ∈ p.pick c.to_ ∧ some pk ≠ c.peer ∧
        retry now p id =
          ({ p with
              chunks :=
                store p.chunks id
                  { c with peer := some pk, deadline := now + chunkTimeout,
                           state := reqState.reqPending } },
           [Event.send pk c.id c.msg.Start c.msg.End])) ∧
      (pickDiff (p.pick c.to_) c.peer = none →
        (∀ q ∈ p.pick c.to_, some q = c.peer) ∧
        retry now p id =
          ({ p with
              chunks :=
                store p.chunks id { c with peer := none, state := reqState.reqError } },
           [Event.catchPiece c.from_ c.to_]))) := by
  refine ⟨retry_absent now p id, ?_⟩
  intro c hload
  refine ⟨pickDiff_eq_find (p.pick c.to_) c.peer, ?_, ?_⟩
  · intro pk hpd
    obtain ⟨hm, hne⟩ := pickDiff_mem_ne (p.pick c.to_) c.peer pk hpd
    exact ⟨hm, hne, retry_present_some now p id c pk hload hpd⟩
  · intro hpd
    exact ⟨pickDiff_none (p.pick c.to_) c.peer hpd,
           retry_present_none now p id c hload hpd⟩

/-- C7 witness: retrying `wChunk` (old peer 7) in `wPool` (peers 7, 8)
reassigns the first different peer 8 with a fresh deadline, pending state,
and the original id and count. -/
theorem retry_spec_witness :
    8 ∈ wPool.pick wChunk.to_ ∧ some 8 ≠ wChunk.peer ∧
    retry 9 wPool 5 =
      ({ wPool with
          chunks :=
            store wPool.chunks 5
              { wChunk with peer := some 8, deadline := 9 + chunkTimeout,
                            state := reqState.reqPending } },
       [Event.send 8 wChunk.id wChunk.msg.Start wChunk.msg.End]) :=
  ((retry_spec 9 wPool 5).2 wChunk rfl).2.1 8 rfl

/-- C8 (confirmed).  `threshold(current)` sets the gate to the boolean
`current + 500 > target` — the sum taken in uint64 arithmetic, as the code
computes it — and touches nothing else: the gate is a function of exactly
`currentHeight`, the pool's target, and the constant margin 500, so two
calls with equal current height and equal target produce equal gates. -/
theorem threshold_gate (p : chunkPool) (current : Nat) :
    (threshold p current).should = decide (p.target < (current + 500) % U64) ∧
    (threshold p current).target = p.target ∧
    (threshold p current).queue = p.queue ∧
    (threshold p current).chunks = p.chunks := by
  unfold threshold
  by_cases hc : p.target < (current + 500) % U64
  · rw [if_pos hc]
    exact ⟨(decide_eq_true hc).symm, rfl, rfl, rfl⟩
  · rw [if_neg hc]
    exact ⟨(decide_eq_false hc).symm, rfl, rfl, rfl⟩

/-- C9 (confirmed).  `stop` before any `start` is a no-op (`term` is nil);
after `start`, the first `stop` closes `term` and drains the inflight map
with no receiver events, and a second `stop` is a no-op. -/
theorem stop_idempotent (p : chunkPool) :
    (p.term = none → stop p = (p, [])) ∧
    ((stop (start p)).1.term = some true ∧ (stop (start p)).1.chunks = [] ∧
     (stop (start p)).2 = [] ∧
     stop (stop (start p)).1 = ((stop (start p)).1, [])) := by
  constructor
  · intro h
    unfold stop
    rw [h]
  · have h1 : stop (start p) = ({ p with term := some true, chunks := [] }, []) := rfl
    rw [h1]
    exact ⟨rfl, rfl, rfl, rfl⟩

/-- C9 witness: the theorem applied to a fresh pool, with the never-started
hypothesis discharged. -/
theorem stop_idempotent_witness :
    stop (newChunkPool pickOne) = (newChunkPool pickOne, []) ∧
    (stop (start (newChunkPool pickOne))).1.chunks = [] ∧
    stop (stop (start (newChunkPool pickOne))).1 =
      ((stop (start (newChunkPool pickOne))).1, []) :=
  ⟨(stop_idempotent (newChunkPool pickOne)).1 rfl,
   (stop_idempotent (newChunkPool pickOne)).2.2.1,
   (stop_idempotent (newChunkPool pickOne)).2.2.2.2⟩

/-- C10 (confirmed).  `exec` dispatches its chunks without touching the
inflight map or the queue; consequently `retry` of any id absent from the
map (such as an exec-dispatched chunk's id) is a no-op — so the timeout
loop never recycles it — and a response carrying such an id neither
updates any count nor marks anything done: the pool is left unchanged. -/
theorem exec_untracked (r now f t : Nat) (p p' : chunkPool) (evs : List Event)
    (h : exec r now p f t = some (p', evs)) :
    p'.chunks = p.chunks ∧ p'.queue = p.queue ∧
    (∀ id now2, load p'.chunks id = none → retry now2 p' id = (p', [])) ∧
    (∀ (now2 : Nat) (msg : Msg) (res : SubLedger), msg.payload = some res →
      load p'.chunks msg.id = none →
      (Handle now2 p' msg).1 = p' ∧ (Handle now2 p' msg).2.2 = none) := by
  have hf := exec_frame r now f t p p' evs h
  refine ⟨hf.1, hf.2, ?_, ?_⟩
  · intro id now2 hl
    exact retry_absent now2 p' id hl
  · intro now2 msg res hpay hl
    by_cases hc : msg.cmd = SubLedgerCode
    · rw [Handle_unknown_id now2 p' msg res hc hpay hl]
      exact ⟨rfl, rfl⟩
    · rw [Handle_bad_cmd now2 p' msg hc, retry_absent now2 p' msg.id hl]
      exact ⟨rfl, rfl⟩

/-- C10 witness: `exec 100 110` on `wPool` leaves the map and queue intact,
and untracked ids are ignored by retry and by response handling. -/
theorem exec_untracked_witness :
    c10Pool.chunks = wPool.chunks ∧ c10Pool.queue = wPool.queue ∧
    (∀ id now2, load c10Pool.chunks id = none → retry now2 c10Pool id = (c10Pool, [])) ∧
    (∀ (now2 : Nat) (msg : Msg) (res : SubLedger), msg.payload = some res →
      load c10Pool.chunks msg.id = none →
      (Handle now2 c10Pool msg).1 = c10Pool ∧ (Handle now2 c10Pool msg).2.2 = none) :=
  exec_untracked 0 0 100 110 wPool c10Pool c10Evs (by rfl)

end Net
